import Mathlib

/-!
ModernCalculator: the expression buffer and the evaluation pipeline of `script.js`.

A shallow embedding of `src/script.js`.  JavaScript strings are modelled as `List Char`
(one `Char` per code unit), the three globals of the script together with the two
observable properties of the `display` element form the record `State`, and the
`setTimeout` calls of `handleError` are counted in the field `timers`.  The dynamic
evaluation `Function(...)()` is a service of the host engine, not code of the script: it is
a parameter `ev` of `calculate`.
-/

namespace ModernCalculator

/-! ## Values, state -/

/-- The observations `calculate` makes on the value returned by the dynamic evaluation:
`isFinite(result)`, `isNaN(result)`, `Number.isInteger(result)`, `result.toString()`,
`parseFloat(result.toFixed(10)).toString()` and `result.toExponential(6)`. -/
structure JsValue where
  isFinite : Bool
  isNaN : Bool
  isInteger : Bool
  toStr : List Char
  toFixed10 : List Char
  toExponential6 : List Char
deriving DecidableEq

/-- Outcome of running `Function('"use strict"; return (' + e + ')')()`: either an exception
with its `name` and `message`, or the returned value. -/
inductive EvalResult where
  | thrown (name message : List Char)
  | value (v : JsValue)
deriving DecidableEq

/-- The mutable state of the script: `display.value`, whether `display.classList` holds
`'error'`, the globals `isError` and `lastResult`, and the number of armed, not yet fired
`setTimeout` callbacks of `handleError`.  (The global `lastOperation` is never read or
written by any function and is left out.) -/
structure State where
  display : List Char
  errorClass : Bool
  isError : Bool
  lastResult : Option JsValue
  timers : Nat
deriving DecidableEq

/-- The state at script load: empty display, `lastResult = null`, `isError = false`. -/
def State.init : State :=
  { display := [], errorClass := false, isError := false, lastResult := none, timers := 0 }

/-! ## String helpers -/

/-- The array literal `['+', '-', '*', '/']` of one-character strings. -/
def operators : List (List Char) := [['+'], ['-'], ['*'], ['/']]

/-- The array literal `['+', '-', '*', '/', '.']` used by `calculate`. -/
def operatorsAndDot : List (List Char) := [['+'], ['-'], ['*'], ['/'], ['.']]

/-- Membership in the character class `[+\-*/]`. -/
def isOperator (c : Char) : Bool := "+-*/".toList.contains c

/-- Membership in the character class `[0-9]`. -/
def isDigit (c : Char) : Bool := "0123456789".toList.contains c

/-- Membership in the character class `[0-9+\-*/().= ]` of `isValidInput`. -/
def isValidChar (c : Char) : Bool := "0123456789+-*/().= ".toList.contains c

/-- Membership in the character class `[0-9+\-*/.() ]` of `sanitizeExpression` and of the
format check of `calculate`. -/
def isExpressionChar (c : Char) : Bool := "0123456789+-*/.() ".toList.contains c

/-- The string method `s.slice(-1)`: the last character as a string, or `""`. -/
def sliceLast (s : List Char) : List Char := s.drop (s.length - 1)

/-- The string method `s.slice(0, -1)`: everything but the last character. -/
def sliceInit (s : List Char) : List Char := s.take (s.length - 1)

/-- The string method `s.includes(sub)`. -/
def includes : List Char → List Char → Bool
  | [], sub => sub.isPrefixOf []
  | c :: cs, sub => sub.isPrefixOf (c :: cs) || includes cs sub

/-- The characters removed by `String.prototype.trim`: WhiteSpace and LineTerminator of
the language definition. -/
def isJsWhitespace (c : Char) : Bool :=
  let n := c.toNat
  n == 0x09 || n == 0x0A || n == 0x0B || n == 0x0C || n == 0x0D || n == 0x20 || n == 0xA0 ||
    n == 0x1680 || (decide (0x2000 ≤ n) && decide (n ≤ 0x200A)) || n == 0x2028 ||
    n == 0x2029 || n == 0x202F || n == 0x205F || n == 0x3000 || n == 0xFEFF

/-- The string method `s.trim()`. -/
def jsTrim (s : List Char) : List Char :=
  ((s.dropWhile isJsWhitespace).reverse.dropWhile isJsWhitespace).reverse

/-- The call `s.split(/[+\-*/]/)`: the pieces of `s` between operator characters. -/
def splitOperators (s : List Char) : List (List Char) := s.splitOnP isOperator

/-- The two lines `numbers = currentValue.split(/[+\-*/]/)` and
`currentNumber = numbers[numbers.length - 1]` of `appendToDisplay`. -/
def currentNumber (currentValue : List Char) : List Char :=
  let numbers := splitOperators currentValue
  numbers.getLastD []

/-! ## Messages -/

def msgInvalidCharacter : List Char := "Invalid character".toList
def msgMaxLength : List Char := "Maximum input length reached".toList
def msgNoExpression : List Char := "No expression to calculate".toList
def msgDivisionByZero : List Char := "Division by zero".toList
def msgInvalidFormat : List Char := "Invalid expression format".toList
def msgIncomplete : List Char := "Incomplete expression".toList
def msgInvalidCalculation : List Char := "Invalid calculation".toList
def msgInfinite : List Char := "Result is infinite".toList
def msgInvalidExpression : List Char := "Invalid expression".toList

/-! ## The functions of `script.js` -/

/-- `isValidInput`: the regular expression `/^[0-9+\-*/().= ]$/` accepts exactly the strings
made of one character of its class. -/
def isValidInput (input : List Char) : Bool :=
  match input with
  | [c] => isValidChar c
  | _ => false

/-- `sanitizeExpression`: delete every character outside `[0-9+\-*/.() ]`. -/
def sanitizeExpression (expression : List Char) : List Char :=
  expression.filter isExpressionChar

/-- `handleError`: show the message, set the error styling and flag, arm a timer. -/
def handleError (message : List Char) (s : State) : State :=
  { s with
    display := "Error: ".toList ++ message
    errorClass := true
    isError := true
    timers := s.timers + 1 }

/-- `clearDisplay`. -/
def clearDisplay (s : State) : State :=
  { s with display := [], errorClass := false, isError := false, lastResult := none }

/-- `clearEntry`. -/
def clearEntry (s : State) : State :=
  { s with display := [], errorClass := false, isError := false }

/-- `appendToDisplay`.  The `throw`s of the `try` block are caught by its own `catch`, which
calls `handleError` on the state reached so far. -/
def appendToDisplay (input : List Char) (s : State) : State :=
  let s := if s.isError then { clearDisplay s with isError := false } else s
  if !isValidInput input then handleError msgInvalidCharacter s
  else
    let currentValue := s.display
    let lastChar := sliceLast currentValue
    if operators.contains input && operators.contains lastChar then
      { s with display := sliceInit currentValue ++ input }
    else if operators.contains input && (currentValue == [] && input != ['-']) then s
    else
      let currentNumber := currentNumber currentValue
      if input == ['.'] && currentNumber.contains '.' then s
      else if input == ['.'] && (currentValue == [] || operators.contains lastChar) then
        { s with display := s.display ++ "0.".toList }
      else if currentValue.length ≥ 15 then handleError msgMaxLength s
      else { s with display := s.display ++ input }

/-- `backspace`. -/
def backspace (s : State) : State :=
  if s.isError then clearDisplay s
  else { s with display := sliceInit s.display }

/-- `toggleSign`. -/
def toggleSign (s : State) : State :=
  if s.isError then clearDisplay s
  else
    let currentValue := s.display
    if currentValue == [] || currentValue == ['0'] then s
    else if ['-'].isPrefixOf currentValue then { s with display := currentValue.drop 1 }
    else { s with display := '-' :: currentValue }

/-- The source text handed to `Function`. -/
def functionBody (sanitizedExpression : List Char) : List Char :=
  "\"use strict\"; return (".toList ++ sanitizedExpression ++ ")".toList

/-- The guard `sanitizedExpression.includes('/0') && !sanitizedExpression.includes('/0.')` of
`calculate`. -/
def divisionByZeroCheck (sanitizedExpression : List Char) : Bool :=
  includes sanitizedExpression "/0".toList && !includes sanitizedExpression "/0.".toList

/-- The `try` block of `calculate`: the exception it ends with (name and message), or the
formatted result together with the value. -/
def calculateTry (ev : List Char → EvalResult) (expression : List Char) :
    Except (List Char × List Char) (List Char × JsValue) :=
  if expression == [] || jsTrim expression == [] then .error ("Error".toList, msgNoExpression)
  else
    let sanitizedExpression := sanitizeExpression expression
    if divisionByZeroCheck sanitizedExpression then .error ("Error".toList, msgDivisionByZero)
    else if !(sanitizedExpression != [] && sanitizedExpression.all isExpressionChar) then
      .error ("Error".toList, msgInvalidFormat)
    else
      let lastChar := sliceLast sanitizedExpression
      if operatorsAndDot.contains lastChar then .error ("Error".toList, msgIncomplete)
      else
        match ev (functionBody sanitizedExpression) with
        | .thrown name message => .error (name, message)
        | .value result =>
          if !result.isFinite then
            if result.isNaN then .error ("Error".toList, msgInvalidCalculation)
            else .error ("Error".toList, msgInfinite)
          else
            let formattedResult := if result.isInteger then result.toStr else result.toFixed10
            let formattedResult :=
              if formattedResult.length > 15 then result.toExponential6 else formattedResult
            .ok (formattedResult, result)

/-- `calculate`: the `try` block followed by the `catch` clause. -/
def calculate (ev : List Char → EvalResult) (s : State) : State :=
  match calculateTry ev s.display with
  | .ok (formattedResult, result) =>
    { s with display := formattedResult, lastResult := some result }
  | .error (name, message) =>
    if name == "SyntaxError".toList then handleError msgInvalidExpression s
    else handleError message s

/-- The callback armed by `handleError`, run when one of the armed timers fires. -/
def timerFires (s : State) : State :=
  let s := { s with timers := s.timers - 1 }
  if s.isError then clearDisplay s else s

/-! ## Sequences of edit operations -/

/-- The edit operations of the buffer editor. -/
inductive Op where
  | append (input : List Char)
  | backspace
  | clear
  | clearEntry
  | toggleSign
deriving DecidableEq

/-- Run one edit operation. -/
def Op.run : Op → State → State
  | .append input, s => appendToDisplay input s
  | .backspace, s => ModernCalculator.backspace s
  | .clear, s => clearDisplay s
  | .clearEntry, s => ModernCalculator.clearEntry s
  | .toggleSign, s => ModernCalculator.toggleSign s

/-- Run a sequence of edit operations, first to last. -/
def runOps (ops : List Op) (s : State) : State := ops.foldl (fun s op => op.run s) s

/-! ## Basic facts on the string helpers -/

theorem sliceLast_nil : sliceLast [] = [] := rfl

theorem sliceLast_concat (b : List Char) (x : Char) : sliceLast (b ++ [x]) = [x] := by
  simp [sliceLast]

theorem sliceInit_eq_dropLast (b : List Char) : sliceInit b = b.dropLast := by
  simp [sliceInit, List.dropLast_eq_take]

theorem sliceInit_concat (b : List Char) (x : Char) : sliceInit (b ++ [x]) = b := by
  simp [sliceInit_eq_dropLast]

theorem isOperator_iff (c : Char) :
    isOperator c = true ↔ c = '+' ∨ c = '-' ∨ c = '*' ∨ c = '/' := by
  simp [isOperator]

theorem operators_contains_iff (input : List Char) :
    operators.contains input = true ↔ ∃ c, input = [c] ∧ isOperator c = true := by
  rw [List.contains, List.elem_iff]
  simp only [operators, List.mem_cons, List.mem_singleton, List.not_mem_nil, or_false,
    isOperator_iff]
  constructor
  · rintro (h | h | h | h) <;> subst h <;> exact ⟨_, rfl, by decide⟩
  · rintro ⟨c, rfl, h⟩
    simpa using h

theorem operators_contains_singleton (c : Char) : operators.contains [c] = isOperator c := by
  rw [Bool.eq_iff_iff, operators_contains_iff]
  simp

theorem operatorsAndDot_contains_iff (input : List Char) :
    operatorsAndDot.contains input = true ↔
      ∃ c, input = [c] ∧ (isOperator c = true ∨ c = '.') := by
  rw [List.contains, List.elem_iff]
  simp only [operatorsAndDot, List.mem_cons, List.mem_singleton, List.not_mem_nil, or_false,
    isOperator_iff]
  constructor
  · rintro (h | h | h | h | h) <;> subst h <;> exact ⟨_, rfl, by decide⟩
  · rintro ⟨c, rfl, h⟩
    simpa [or_assoc] using h

/-- A buffer ends in an operator character. -/
def EndsInOperator (b : List Char) : Prop := ∃ o, b.getLast? = some o ∧ isOperator o = true

instance (b : List Char) : Decidable (EndsInOperator b) :=
  decidable_of_iff (∃ o ∈ b.getLast?, isOperator o = true) (by simp [EndsInOperator])

theorem operators_contains_sliceLast (b : List Char) :
    operators.contains (sliceLast b) = true ↔ EndsInOperator b := by
  rcases List.eq_nil_or_concat b with rfl | ⟨b, x, rfl⟩
  · simp [sliceLast, EndsInOperator, operators]
  · rw [List.concat_eq_append, sliceLast_concat, operators_contains_singleton]
    simp [EndsInOperator]

theorem isValidChar_of_isOperator {c : Char} (h : isOperator c = true) :
    isValidChar c = true := by
  rw [isOperator_iff] at h
  rcases h with rfl | rfl | rfl | rfl <;> decide

theorem isValidChar_of_isExpressionChar {c : Char} (h : isExpressionChar c = true) :
    isValidChar c = true := by
  simp [isExpressionChar] at h
  rcases h with h | h | h | h | h | h | h | h | h | h | h | h | h | h | h | h | h | h <;>
    subst h <;> decide

theorem splitOnP_concat {α : Type} (p : α → Bool) (l : List α) (x : α) :
    (l ++ [x]).splitOnP p =
      if p x then l.splitOnP p ++ [[]]
      else (l.splitOnP p).dropLast ++ [(l.splitOnP p).getLastD [] ++ [x]] := by
  induction l with
  | nil => by_cases hx : p x <;> simp [hx, List.modifyHead]
  | cons a l ih =>
    have hne := List.splitOnP_ne_nil p l
    rw [List.cons_append, List.splitOnP_cons, List.splitOnP_cons, ih]
    rcases hS : l.splitOnP p with _ | ⟨s, S⟩
    · exact absurd hS hne
    · by_cases hx : p x <;> by_cases ha : p a <;> simp [hx, ha, List.modifyHead]
      all_goals (cases S <;> simp)

theorem currentNumber_nil : currentNumber [] = [] := rfl

theorem currentNumber_concat (b : List Char) (x : Char) :
    currentNumber (b ++ [x]) = if isOperator x then [] else currentNumber b ++ [x] := by
  simp only [currentNumber, splitOperators, splitOnP_concat]
  by_cases hx : isOperator x = true <;> simp [hx, List.getLastD_eq_getLast?]

/-- The part of a buffer after its last operator character (the whole buffer when it has
none). -/
def afterLastOperator (b : List Char) : List Char :=
  (b.reverse.takeWhile (fun c => !isOperator c)).reverse

theorem currentNumber_eq_afterLastOperator (b : List Char) :
    currentNumber b = afterLastOperator b := by
  induction b using List.reverseRecOn with
  | nil => rfl
  | append_singleton b x ih =>
    rw [currentNumber_concat, ih]
    by_cases hx : isOperator x = true <;> simp [afterLastOperator, hx, List.takeWhile_cons]

theorem mem_operators_singleton (c : Char) : [c] ∈ operators ↔ isOperator c = true := by
  rw [← operators_contains_singleton, List.contains, List.elem_iff]

theorem sliceLast_mem_operators (b : List Char) :
    sliceLast b ∈ operators ↔ EndsInOperator b := by
  rw [← operators_contains_sliceLast, List.contains, List.elem_iff]

/-! ## `appendToDisplay` case by case -/

theorem appendToDisplay_of_isError (input : List Char) (s : State) (h : s.isError = true) :
    appendToDisplay input s = appendToDisplay input (clearDisplay s) := by
  simp [appendToDisplay, h, clearDisplay]

theorem appendToDisplay_invalid (input : List Char) (s : State) (hs : s.isError = false)
    (h : isValidInput input = false) :
    appendToDisplay input s = handleError msgInvalidCharacter s := by
  simp [appendToDisplay, hs, h]

/-- On a state without error and a character of the class of `isValidInput`,
`appendToDisplay` is the cascade of its five guards. -/
theorem appendToDisplay_valid (c : Char) (s : State) (hs : s.isError = false)
    (hv : isValidChar c = true) :
    appendToDisplay [c] s =
      if isOperator c = true ∧ EndsInOperator s.display then
        { s with display := s.display.dropLast ++ [c] }
      else if isOperator c = true ∧ s.display = [] ∧ c ≠ '-' then s
      else if c = '.' ∧ '.' ∈ currentNumber s.display then s
      else if c = '.' ∧ (s.display = [] ∨ EndsInOperator s.display) then
        { s with display := s.display ++ ['0', '.'] }
      else if 15 ≤ s.display.length then handleError msgMaxLength s
      else { s with display := s.display ++ [c] } := by
  obtain ⟨d, ec, ie, lr, t⟩ := s
  simp only at hs
  subst hs
  simp only [appendToDisplay, isValidInput, hv, Bool.false_eq_true, if_false, Bool.not_true,
    Bool.and_eq_true, List.contains, List.elem_eq_mem, decide_eq_true_eq,
    mem_operators_singleton, sliceLast_mem_operators, sliceInit_eq_dropLast, beq_iff_eq,
    Bool.or_eq_true, bne_iff_ne, ne_eq, List.cons.injEq, and_true, String.toList, ge_iff_le]

theorem backspace_nonError (s : State) (hs : s.isError = false) :
    backspace s = { s with display := s.display.dropLast } := by
  simp [backspace, hs, sliceInit_eq_dropLast]

/-! ## Claims on single operations -/

/-- C8: on a state without error whose buffer ends in an operator character, appending an
operator `c` yields exactly the buffer with its last character replaced by `c`: the length
is unchanged and no error is raised, whatever the length of the buffer. -/
theorem appendToDisplay_operator_replaces_last (s : State) (c : Char)
    (hs : s.isError = false) (hlast : EndsInOperator s.display) (hc : isOperator c = true) :
    appendToDisplay [c] s = { s with display := s.display.dropLast ++ [c] } ∧
      (appendToDisplay [c] s).display.length = s.display.length ∧
      (appendToDisplay [c] s).isError = false := by
  have h := appendToDisplay_valid c s hs (isValidChar_of_isOperator hc)
  rw [if_pos ⟨hc, hlast⟩] at h
  have hne : s.display ≠ [] := by
    rintro h0
    obtain ⟨o, ho, -⟩ := hlast
    simp [h0] at ho
  refine ⟨h, ?_, ?_⟩
  · rw [h]
    have := List.length_pos.2 hne
    simp only [List.length_append, List.length_dropLast, List.length_singleton]
    omega
  · rw [h]; exact hs

/-- The witness of C8 in the specification: from `"5+"`, appending `*` gives `"5*"`. -/
theorem appendToDisplay_operator_replaces_last_witness :
    (appendToDisplay ['*'] { State.init with display := "5+".toList }).display = "5*".toList ∧
      (appendToDisplay ['*'] { State.init with display := "5+".toList }).isError = false :=
  have h := appendToDisplay_operator_replaces_last { State.init with display := "5+".toList }
    '*' rfl (by decide) (by decide)
  ⟨by rw [h.1]; decide, h.2.2⟩

/-- C9: on a state without error, appending `.` changes nothing when the part of the buffer
after its last operator character already contains `.`; otherwise, when the buffer is empty
or ends in an operator, the buffer becomes the old buffer followed by `0.`. -/
theorem appendToDisplay_decimal_point (s : State) (hs : s.isError = false) :
    ('.' ∈ afterLastOperator s.display → appendToDisplay ['.'] s = s) ∧
      ('.' ∉ afterLastOperator s.display → (s.display = [] ∨ EndsInOperator s.display) →
        appendToDisplay ['.'] s = { s with display := s.display ++ "0.".toList }) := by
  have h := appendToDisplay_valid '.' s hs (by decide)
  have hno : isOperator '.' = false := by decide
  rw [currentNumber_eq_afterLastOperator] at h
  simp only [hno, Bool.false_eq_true, false_and, if_false, true_and] at h
  constructor
  · intro hd
    rw [h, if_pos hd]
  · intro hd hb
    rw [h, if_neg hd, if_pos hb]
    rfl

/-- The witnesses of C9 in the specification: `"3.5"` stays `"3.5"`, and `"3+"` becomes
`"3+0."`. -/
theorem appendToDisplay_decimal_point_witness :
    appendToDisplay ['.'] { State.init with display := "3.5".toList } =
        { State.init with display := "3.5".toList } ∧
      appendToDisplay ['.'] { State.init with display := "3+".toList } =
        { State.init with display := "3+0.".toList } :=
  ⟨(appendToDisplay_decimal_point { State.init with display := "3.5".toList } rfl).1
      (by decide),
    (appendToDisplay_decimal_point { State.init with display := "3+".toList } rfl).2
      (by decide) (by decide)⟩

theorem toggleSign_noop (s : State) (hs : s.isError = false)
    (h : s.display = [] ∨ s.display = ['0']) : toggleSign s = s := by
  obtain ⟨d, ec, ie, lr, t⟩ := s
  simp only at hs h
  subst hs
  rcases h with h | h <;> subst h <;> rfl

theorem toggleSign_strip (s : State) (hs : s.isError = false) (rest : List Char)
    (h : s.display = '-' :: rest) : toggleSign s = { s with display := rest } := by
  obtain ⟨d, ec, ie, lr, t⟩ := s
  simp only at hs h
  subst hs h
  simp [toggleSign]

theorem toggleSign_prepend (s : State) (hs : s.isError = false) (h1 : s.display ≠ [])
    (h2 : s.display ≠ ['0']) (h3 : s.display.head? ≠ some '-') :
    toggleSign s = { s with display := '-' :: s.display } := by
  obtain ⟨d, ec, ie, lr, t⟩ := s
  simp only at hs h1 h2 h3
  subst hs
  cases d with
  | nil => exact absurd rfl h1
  | cons x d =>
    have hx : ¬ '-' = x := by
      intro h; exact h3 (by simp [← h])
    have h0 : ¬ (x = '0' ∧ d = []) := by
      rintro ⟨rfl, rfl⟩; exact h2 rfl
    simp [toggleSign, h0, hx]

/-- C10: on a state without error, `toggleSign` changes nothing when the buffer is empty or
is `"0"`; otherwise it removes the first character when the buffer starts with `-` and
prepends `-` to the whole buffer when it does not.  It never raises an error and never
changes `lastResult`. -/
theorem toggleSign_spec (s : State) (hs : s.isError = false) :
    ((s.display = [] ∨ s.display = ['0']) → toggleSign s = s) ∧
      (∀ rest, s.display = '-' :: rest → toggleSign s = { s with display := rest }) ∧
      (s.display ≠ [] → s.display ≠ ['0'] → s.display.head? ≠ some '-' →
        toggleSign s = { s with display := '-' :: s.display }) ∧
      (toggleSign s).isError = false ∧ (toggleSign s).lastResult = s.lastResult := by
  refine ⟨toggleSign_noop s hs, toggleSign_strip s hs,
    toggleSign_prepend s hs, ?_, ?_⟩
  · simp only [toggleSign, hs, Bool.false_eq_true, if_false]
    split_ifs <;> first | rfl | exact hs
  · simp only [toggleSign, hs, Bool.false_eq_true, if_false]
    split_ifs <;> rfl

/-- The example of C10 in the specification: `"5+3"` becomes `"-5+3"`. -/
theorem toggleSign_spec_witness :
    toggleSign { State.init with display := "5+3".toList } =
      { State.init with display := "-5+3".toList } :=
  (toggleSign_spec { State.init with display := "5+3".toList } rfl).2.2.1
    (by decide) (by decide) (by decide)

/-- The alphabet of the buffer in the data model of the specification:
`{0-9, +, -, *, /, ., (, ), space}`. -/
def allowedAlphabet : List Char := "0123456789+-*/.() ".toList

theorem isExpressionChar_iff_mem (c : Char) : isExpressionChar c = true ↔ c ∈ allowedAlphabet := by
  simp [isExpressionChar, allowedAlphabet]

theorem isValidInput_iff (input : List Char) :
    isValidInput input = true ↔ ∃ c, input = [c] ∧ isValidChar c = true := by
  match input with
  | [] => simp [isValidInput]
  | [c] => simp [isValidInput]
  | _ :: _ :: _ => simp [isValidInput]

/-- C3, counterexample: the 15-character buffer `"11111111111111+"` is reached from the empty
buffer, and appending the allowed character `*` to it raises no error: the last character is
replaced. -/
theorem appendToDisplay_at_cap_counterexample :
    runOps (List.replicate 14 (Op.append ['1']) ++ [Op.append ['+']]) State.init =
        { State.init with display := "11111111111111+".toList } ∧
      "11111111111111+".toList.length = 15 ∧ '*' ∈ allowedAlphabet ∧
      appendToDisplay ['*'] { State.init with display := "11111111111111+".toList } =
        { State.init with display := "11111111111111*".toList } ∧
      appendToDisplay ['*'] { State.init with display := "11111111111111+".toList } ≠
        handleError msgMaxLength { State.init with display := "11111111111111+".toList } := by
  decide

/-- C3, amended: on a state without error whose buffer has exactly 15 characters, and for a
character `c` of the allowed alphabet: when `c` is an operator and the buffer ends in an
operator, the last character is replaced by `c` and no error is raised; when `c` is `.` and
the part of the buffer after its last operator already contains `.`, nothing changes; when
`c` is not an operator or the buffer does not end in an operator, and `c` is not `.` or the
part after the last operator has no `.` and the buffer does not end in an operator, the call
fails with the message `Maximum input length reached`. -/
theorem appendToDisplay_at_cap (s : State) (c : Char) (hs : s.isError = false)
    (hlen : s.display.length = 15) (hc : c ∈ allowedAlphabet) :
    (isOperator c = true ∧ EndsInOperator s.display →
        appendToDisplay [c] s = { s with display := s.display.dropLast ++ [c] }) ∧
      (c = '.' ∧ '.' ∈ afterLastOperator s.display → appendToDisplay [c] s = s) ∧
      ((isOperator c = true → ¬ EndsInOperator s.display) →
        (c = '.' → '.' ∉ afterLastOperator s.display ∧ ¬ EndsInOperator s.display) →
        appendToDisplay [c] s = handleError msgMaxLength s ∧
          (appendToDisplay [c] s).isError = true ∧
          (appendToDisplay [c] s).display = "Error: Maximum input length reached".toList) := by
  have hv : isValidChar c = true :=
    isValidChar_of_isExpressionChar ((isExpressionChar_iff_mem c).2 hc)
  have h := appendToDisplay_valid c s hs hv
  rw [currentNumber_eq_afterLastOperator] at h
  have hne : s.display ≠ [] := by
    intro h0; rw [h0] at hlen; simp at hlen
  refine ⟨fun h1 => ?_, fun h2 => ?_, fun h3 h4 => ?_⟩
  · rw [h, if_pos h1]
  · have hno : ¬ (isOperator c = true) := by rw [h2.1]; decide
    rw [h, if_neg (fun h => hno h.1), if_neg (fun h => hno h.1), if_pos h2]
  · have e : appendToDisplay [c] s = handleError msgMaxLength s := by
      rw [h, if_neg (fun h => h3 h.1 h.2), if_neg (fun h => hne h.2.1),
        if_neg (fun h => (h4 h.1).1 h.2),
        if_neg (fun h => h.2.elim hne (h4 h.1).2), if_pos (by omega)]
    refine ⟨e, ?_, ?_⟩ <;> rw [e] <;> rfl

/-- A 15-digit buffer rejects a sixteenth digit. -/
theorem appendToDisplay_at_cap_witness :
    appendToDisplay ['6'] { State.init with display := "123456789012345".toList } =
      handleError msgMaxLength { State.init with display := "123456789012345".toList } :=
  ((appendToDisplay_at_cap { State.init with display := "123456789012345".toList } '6'
    rfl (by decide) (by decide)).2.2 (by decide) (by decide)).1

/-- C4, counterexample: `.` is accepted by `isValidInput`, and appending it to the empty
buffer and then deleting one character leaves `"0"`, not the empty buffer. -/
theorem append_backspace_counterexample :
    isValidInput ['.'] = true ∧
      (backspace (appendToDisplay ['.'] State.init)).display = ['0'] ∧
      (backspace (appendToDisplay ['.'] State.init)).display ≠ [] := by
  decide

/-- C4, amended: on a state without error whose buffer is empty, and for an input accepted by
`isValidInput`: when the input is not `.`, `appendToDisplay` followed by `backspace` gives
back the state, so the buffer is empty again; when it is `.`, the buffer is left as `"0"`. -/
theorem append_backspace_empty (s : State) (input : List Char) (hs : s.isError = false)
    (hb : s.display = []) (hv : isValidInput input = true) :
    (input ≠ ['.'] → backspace (appendToDisplay input s) = s) ∧
      (input = ['.'] → backspace (appendToDisplay input s) = { s with display := ['0'] }) := by
  obtain ⟨c, rfl, hc⟩ := (isValidInput_iff input).1 hv
  obtain ⟨d, ec, ie, lr, t⟩ := s
  simp only at hs hb
  subst hs hb
  have h := appendToDisplay_valid c ⟨[], ec, false, lr, t⟩ rfl hc
  have hend : ¬ EndsInOperator ([] : List Char) := by
    rintro ⟨o, ho, -⟩; simp at ho
  simp only [hend, and_false, if_false, currentNumber_nil, List.not_mem_nil, true_and,
    or_false, List.length_nil, Nat.not_succ_le_zero, nonpos_iff_eq_zero, OfNat.ofNat_ne_zero,
    List.nil_append] at h
  constructor
  · intro hne
    have hc2 : c ≠ '.' := fun h => hne (by rw [h])
    rw [h]
    simp only [hc2, false_and, if_false]
    split_ifs <;> simp [backspace, sliceInit]
  · intro he
    have hc2 : c = '.' := by simpa using he
    subst hc2
    rw [h]
    simp [backspace, sliceInit, isOperator]

/-- Appending `7` to the empty buffer and then deleting gives the initial state back. -/
theorem append_backspace_empty_witness :
    backspace (appendToDisplay ['7'] State.init) = State.init :=
  (append_backspace_empty State.init ['7'] rfl rfl (by decide)).1 (by decide)

/-- C7, counterexample: `=` is not in the allowed alphabet, yet `appendToDisplay` accepts it
and appends it to the buffer without any error. -/
theorem appendToDisplay_invalid_counterexample :
    '=' ∉ allowedAlphabet ∧
      appendToDisplay ['='] State.init = { State.init with display := ['='] } ∧
      (appendToDisplay ['='] State.init).isError = false := by
  decide

/-- C7, amended: for every input that is not a single character of
`{0-9, +, -, *, /, (, ), ., =, space}`, on every state, `appendToDisplay` fails with the
message `Invalid character`: the error flag is set and the display reads
`Error: Invalid character`; the input is not appended to the buffer that was shown. -/
theorem appendToDisplay_invalid_character (input : List Char) (s : State)
    (h : ∀ c, input = [c] → c ∉ "0123456789+-*/().= ".toList) :
    appendToDisplay input s =
        handleError msgInvalidCharacter (if s.isError then clearDisplay s else s) ∧
      (appendToDisplay input s).isError = true ∧
      (appendToDisplay input s).display = "Error: Invalid character".toList := by
  have hv : isValidInput input = false := by
    rw [Bool.eq_false_iff]
    intro hv
    obtain ⟨c, rfl, hc⟩ := (isValidInput_iff input).1 hv
    exact h c rfl (by simpa [isValidChar] using hc)
  have e : appendToDisplay input s =
      handleError msgInvalidCharacter (if s.isError then clearDisplay s else s) := by
    by_cases hs : s.isError = true
    · rw [appendToDisplay_of_isError input s hs, if_pos hs]
      exact appendToDisplay_invalid input _ rfl hv
    · rw [if_neg hs]
      exact appendToDisplay_invalid input s (by simpa using hs) hv
  refine ⟨e, ?_, ?_⟩ <;> rw [e] <;> rfl

/-- The letter `x` is rejected, and the display shows the error text instead of `"12"`. -/
theorem appendToDisplay_invalid_character_witness :
    (appendToDisplay ['x'] { State.init with display := "12".toList }).display =
      "Error: Invalid character".toList :=
  (appendToDisplay_invalid_character ['x'] { State.init with display := "12".toList }
    (by intro c hc; cases hc; decide)).2.2

/-! ## Invariants of the buffer under the edit operations -/

/-- Two neighbouring characters are not both operators. -/
def NotBothOperators (x y : Char) : Prop := ¬ (isOperator x = true ∧ isOperator y = true)

/-- The operator invariant: past the first character no two neighbours are both operators,
and the same holds from the first character on unless the buffer starts with `-`. -/
def OperatorInv (b : List Char) : Prop :=
  List.Chain' NotBothOperators b.tail ∧
    (b.head? ≠ some '-' → List.Chain' NotBothOperators b)

theorem chain_push {l : List Char} {c : Char} (h : List.Chain' NotBothOperators l)
    (hc : ∀ x, l.getLast? = some x → NotBothOperators x c) :
    List.Chain' NotBothOperators (l ++ [c]) := by
  refine h.append (List.chain'_singleton c) ?_
  intro x hx y hy
  have : y = c := by simpa using hy.symm
  subst this
  exact hc x (by simpa using hx)

theorem chain_replace {l : List Char} {o c : Char}
    (h : List.Chain' NotBothOperators (l ++ [o])) (ho : isOperator o = true) :
    List.Chain' NotBothOperators (l ++ [c]) := by
  rw [List.chain'_append] at h
  refine chain_push h.1 ?_
  intro x hx hxc
  exact h.2.2 x (by simpa using hx) o (by simp) ⟨hxc.1, ho⟩

theorem operatorInv_nil : OperatorInv [] :=
  ⟨List.chain'_nil, fun _ => List.chain'_nil⟩

theorem operatorInv_dropLast {b : List Char} (h : OperatorInv b) : OperatorInv b.dropLast := by
  match b, h with
  | [], h => exact h
  | [_], _ => exact operatorInv_nil
  | x :: y :: t, h =>
    rw [List.dropLast_cons₂]
    exact ⟨h.1.init, fun hx => (h.2 hx).init⟩

theorem operatorInv_push {b : List Char} {c : Char} (h : OperatorInv b)
    (hc : ∀ x, b.getLast? = some x → NotBothOperators x c) : OperatorInv (b ++ [c]) := by
  match b, h, hc with
  | [], _, _ => exact ⟨List.chain'_nil, fun _ => List.chain'_singleton c⟩
  | x :: t, h, hc =>
    refine ⟨chain_push h.1 ?_, fun hx => chain_push (h.2 hx) hc⟩
    intro y hy
    refine hc y ?_
    cases t with
    | nil => simp at hy
    | cons z t => simpa [List.getLast?_cons_cons] using hy

theorem operatorInv_replace {l : List Char} {o c : Char} (h : OperatorInv (l ++ [o]))
    (ho : isOperator o = true) : OperatorInv (l ++ [c]) := by
  match l, h with
  | [], _ => exact ⟨List.chain'_nil, fun _ => List.chain'_singleton c⟩
  | x :: t, h => exact ⟨chain_replace h.1 ho, fun hx => chain_replace (h.2 hx) ho⟩

theorem operatorInv_strip {t : List Char} (h : OperatorInv ('-' :: t)) : OperatorInv t :=
  ⟨h.1.tail, fun _ => h.1⟩

theorem operatorInv_prepend {b : List Char} (h : OperatorInv b) (hb : b.head? ≠ some '-') :
    OperatorInv ('-' :: b) :=
  ⟨h.2 hb, fun hx => absurd rfl hx⟩

/-- The operator invariant read on positions: two neighbours that are both operators sit at
positions 0 and 1, and the buffer then starts with `-`. -/
theorem OperatorInv.adjacent {b : List Char} (h : OperatorInv b) (i : Nat)
    (hi : i + 1 < b.length) (h1 : isOperator (b.get ⟨i, by omega⟩) = true)
    (h2 : isOperator (b.get ⟨i + 1, hi⟩) = true) : i = 0 ∧ b.head? = some '-' := by
  match b, h, i with
  | [], _, _ => simp at hi
  | x :: t, h, 0 =>
    refine ⟨rfl, ?_⟩
    by_contra hx
    have hc := (List.chain'_iff_get.1 (h.2 hx)) 0 (by simp at hi ⊢; omega)
    exact hc ⟨h1, h2⟩
  | x :: t, h, j + 1 =>
    exfalso
    have hc := (List.chain'_iff_get.1 h.1) j (by simp at hi ⊢; omega)
    exact hc ⟨h1, h2⟩

/-- The decimal-point invariant: every piece of the buffer between operator characters holds
at most one `.`. -/
def DotInv (b : List Char) : Prop := ∀ seg ∈ splitOperators b, seg.count '.' ≤ 1

theorem dropLast_append_getLastD {α : Type} (S : List (List α)) (h : S ≠ []) :
    S.dropLast ++ [S.getLastD []] = S := by
  rw [List.getLastD_eq_getLast?, List.getLast?_eq_getLast _ h]
  exact List.dropLast_append_getLast h

theorem currentNumber_mem (b : List Char) : currentNumber b ∈ splitOperators b := by
  have hne : splitOperators b ≠ [] := List.splitOnP_ne_nil _ _
  have h := dropLast_append_getLastD (splitOperators b) hne
  rw [← h]
  simp [currentNumber]

theorem mem_splitOperators_concat {b : List Char} {x : Char} {seg : List Char}
    (h : seg ∈ splitOperators (b ++ [x])) :
    (isOperator x = true ∧ (seg ∈ splitOperators b ∨ seg = [])) ∨
      (isOperator x = false ∧
        (seg ∈ (splitOperators b).dropLast ∨ seg = currentNumber b ++ [x])) := by
  rw [splitOperators, splitOnP_concat] at h
  by_cases hx : isOperator x = true
  · left
    rw [if_pos hx] at h
    exact ⟨hx, by simpa [splitOperators] using h⟩
  · right
    rw [if_neg hx] at h
    exact ⟨by simpa using hx, by simpa [splitOperators, currentNumber] using h⟩

theorem dotInv_nil : DotInv [] := by
  intro seg hseg
  have : seg = [] := by simpa [splitOperators] using hseg
  simp [this]

theorem dotInv_of_concat {b : List Char} {x : Char} (h : DotInv (b ++ [x])) : DotInv b := by
  intro seg hseg
  have hne : splitOperators b ≠ [] := List.splitOnP_ne_nil _ _
  by_cases hx : isOperator x = true
  · apply h
    rw [splitOperators, splitOnP_concat, if_pos hx]
    exact List.mem_append_left _ hseg
  · have hsplit : splitOperators (b ++ [x]) =
        (splitOperators b).dropLast ++ [currentNumber b ++ [x]] := by
      rw [splitOperators, splitOnP_concat, if_neg hx]; rfl
    rw [← dropLast_append_getLastD (splitOperators b) hne, List.mem_append] at hseg
    rcases hseg with hseg | hseg
    · apply h
      rw [hsplit]
      exact List.mem_append_left _ hseg
    · have hs : seg = currentNumber b := by simpa [currentNumber] using hseg
      have := h (currentNumber b ++ [x]) (by rw [hsplit]; simp)
      rw [hs]
      rw [List.count_append] at this
      omega

theorem dotInv_dropLast {b : List Char} (h : DotInv b) : DotInv b.dropLast := by
  rcases List.eq_nil_or_concat b with rfl | ⟨l, x, rfl⟩
  · exact h
  · rw [List.concat_eq_append] at h ⊢
    rw [List.dropLast_concat]
    exact dotInv_of_concat h

theorem dotInv_push {b : List Char} {c : Char} (h : DotInv b)
    (hc : c = '.' → '.' ∉ currentNumber b) : DotInv (b ++ [c]) := by
  intro seg hseg
  rcases mem_splitOperators_concat hseg with ⟨-, hseg | rfl⟩ | ⟨-, hseg | rfl⟩
  · exact h seg hseg
  · simp
  · exact h seg (List.mem_of_mem_dropLast hseg)
  · have h1 := h _ (currentNumber_mem b)
    rw [List.count_append]
    by_cases hd : c = '.'
    · have h0 : (currentNumber b).count '.' = 0 := List.count_eq_zero.2 (hc hd)
      rw [h0, hd]; simp
    · have : [c].count '.' = 0 := by
        rw [List.count_eq_zero]; simpa using Ne.symm hd
      omega

theorem dotInv_replace {l : List Char} {o c : Char} (h : DotInv (l ++ [o]))
    (ho : isOperator o = true) (hc : isOperator c = true) : DotInv (l ++ [c]) := by
  intro seg hseg
  apply h
  rw [splitOperators, splitOnP_concat, if_pos hc] at hseg
  rw [splitOperators, splitOnP_concat, if_pos ho]
  exact hseg

theorem dotInv_strip {t : List Char} (h : DotInv ('-' :: t)) : DotInv t := by
  intro seg hseg
  apply h
  have hm : isOperator '-' = true := by decide
  rw [splitOperators, List.splitOnP_cons, if_pos hm]
  exact List.mem_cons_of_mem _ hseg

theorem dotInv_prepend {b : List Char} (h : DotInv b) : DotInv ('-' :: b) := by
  intro seg hseg
  have hm : isOperator '-' = true := by decide
  rw [splitOperators, List.splitOnP_cons, if_pos hm, List.mem_cons] at hseg
  rcases hseg with rfl | hseg
  · simp
  · exact h seg hseg

/-- The two invariants of the buffer together. -/
def BufferInv (b : List Char) : Prop := OperatorInv b ∧ DotInv b

theorem bufferInv_nil : BufferInv [] := ⟨operatorInv_nil, dotInv_nil⟩

theorem EndsInOperator.eq_concat {b : List Char} (h : EndsInOperator b) :
    ∃ l o, b = l ++ [o] ∧ isOperator o = true := by
  obtain ⟨o, ho, hop⟩ := h
  rcases List.eq_nil_or_concat b with rfl | ⟨l, x, rfl⟩
  · simp at ho
  · rw [List.concat_eq_append] at ho ⊢
    have : x = o := by simpa using ho
    exact ⟨l, x, rfl, this ▸ hop⟩

theorem bufferInv_push {b : List Char} {c : Char} (h : BufferInv b)
    (hop : isOperator c = true → ¬ EndsInOperator b)
    (hdot : c = '.' → '.' ∉ currentNumber b) : BufferInv (b ++ [c]) :=
  ⟨operatorInv_push h.1 (fun x hx hxc => hop hxc.2 ⟨x, hx, hxc.1⟩), dotInv_push h.2 hdot⟩

theorem bufferInv_appendToDisplay_nonError (input : List Char) (s : State)
    (hs : s.isError = false) (h : BufferInv s.display) :
    (appendToDisplay input s).isError = false →
      BufferInv (appendToDisplay input s).display := by
  by_cases hv : isValidInput input = true
  · obtain ⟨c, rfl, hc⟩ := (isValidInput_iff input).1 hv
    rw [appendToDisplay_valid c s hs hc]
    split_ifs with h1 h2 h3 h4 h5
    · intro _
      obtain ⟨l, o, hl, ho⟩ := h1.2.eq_concat
      show BufferInv (s.display.dropLast ++ [c])
      rw [hl, List.dropLast_concat]
      rw [hl] at h
      exact ⟨operatorInv_replace h.1 ho, dotInv_replace h.2 ho h1.1⟩
    · exact fun _ => h
    · exact fun _ => h
    · intro _
      show BufferInv (s.display ++ ['0', '.'])
      have hcur : '.' ∉ currentNumber s.display := fun hd => h3 ⟨h4.1, hd⟩
      have h0 : BufferInv (s.display ++ ['0']) :=
        bufferInv_push h (fun hop => absurd hop (by decide)) (fun hd => absurd hd (by decide))
      have h1 : BufferInv ((s.display ++ ['0']) ++ ['.']) := by
        refine bufferInv_push h0 (fun hop => absurd hop (by decide)) (fun _ => ?_)
        rw [currentNumber_concat]
        simpa [isOperator] using hcur
      simpa using h1
    · intro he
      simp [handleError] at he
    · intro _
      show BufferInv (s.display ++ [c])
      exact bufferInv_push h (fun hop hend => h1 ⟨hop, hend⟩) (fun hd hcur => h3 ⟨hd, hcur⟩)
  · intro he
    rw [appendToDisplay_invalid input s hs (by simpa using hv)] at he
    simp [handleError] at he

theorem clearDisplay_isError (s : State) : (clearDisplay s).isError = false := rfl

theorem clearDisplay_display (s : State) : (clearDisplay s).display = [] := rfl

/-- One edit operation keeps the invariants on states without error. -/
theorem bufferInv_run (op : Op) (s : State) (h : s.isError = false → BufferInv s.display) :
    (op.run s).isError = false → BufferInv (op.run s).display := by
  cases op with
  | append input =>
    show (appendToDisplay input s).isError = false →
      BufferInv (appendToDisplay input s).display
    by_cases hs : s.isError = true
    · rw [appendToDisplay_of_isError input s hs]
      exact bufferInv_appendToDisplay_nonError input (clearDisplay s) rfl bufferInv_nil
    · have hs2 : s.isError = false := by simpa using hs
      exact bufferInv_appendToDisplay_nonError input s hs2 (h hs2)
  | backspace =>
    show (backspace s).isError = false → BufferInv (backspace s).display
    by_cases hs : s.isError = true
    · simp only [backspace, hs, if_true]
      exact fun _ => bufferInv_nil
    · have hs2 : s.isError = false := by simpa using hs
      rw [backspace_nonError s hs2]
      exact fun _ => ⟨operatorInv_dropLast (h hs2).1, dotInv_dropLast (h hs2).2⟩
  | clear => exact fun _ => bufferInv_nil
  | clearEntry => exact fun _ => bufferInv_nil
  | toggleSign =>
    show (toggleSign s).isError = false → BufferInv (toggleSign s).display
    by_cases hs : s.isError = true
    · simp only [toggleSign, hs, if_true]
      exact fun _ => bufferInv_nil
    · have hs2 : s.isError = false := by simpa using hs
      have hb := h hs2
      intro _
      by_cases h0 : s.display = [] ∨ s.display = ['0']
      · rw [toggleSign_noop s hs2 h0]; exact hb
      · rw [not_or] at h0
        by_cases hm : s.display.head? = some '-'
        · obtain ⟨rest, hrest⟩ : ∃ rest, s.display = '-' :: rest := by
            cases hd : s.display with
            | nil => exact absurd hd h0.1
            | cons x rest =>
              rw [hd] at hm
              have : x = '-' := by simpa using hm
              exact ⟨rest, by rw [this]⟩
          rw [toggleSign_strip s hs2 rest hrest]
          rw [hrest] at hb
          exact ⟨operatorInv_strip hb.1, dotInv_strip hb.2⟩
        · rw [toggleSign_prepend s hs2 h0.1 h0.2 hm]
          exact ⟨operatorInv_prepend hb.1 hm, dotInv_prepend hb.2⟩

theorem bufferInv_runOps (ops : List Op) (s : State)
    (h : s.isError = false → BufferInv s.display) :
    (runOps ops s).isError = false → BufferInv (runOps ops s).display := by
  induction ops generalizing s with
  | nil => exact h
  | cons op ops ih => exact ih (op.run s) (bufferInv_run op s h)

theorem bufferInv_reachable (ops : List Op) (h : (runOps ops State.init).isError = false) :
    BufferInv (runOps ops State.init).display :=
  bufferInv_runOps ops State.init (fun _ => bufferInv_nil) h

/-! ## Numeric tokens -/

/-- A digit or a decimal point. -/
def isNumericChar (c : Char) : Bool := isDigit c || c == '.'

/-- The numeric tokens of a buffer: its maximal runs of consecutive digits and decimal
points, left to right. -/
def numericTokens (b : List Char) : List (List Char) :=
  (b.splitOnP (fun c => !isNumericChar c)).filter (fun t => !t.isEmpty)

theorem not_isNumericChar_of_isOperator {c : Char} (h : isOperator c = true) :
    isNumericChar c = false := by
  rw [isOperator_iff] at h
  rcases h with rfl | rfl | rfl | rfl <;> decide

theorem getLastD_concat {α : Type} (S : List α) (a d : α) : (S ++ [a]).getLastD d = a := by
  simp [List.getLastD_eq_getLast?]

/-- The last run of digits and points of a buffer is an end of its current number, so it
holds no more points. -/
theorem count_lastRun_le (b : List Char) :
    ((b.splitOnP (fun c => !isNumericChar c)).getLastD []).count '.' ≤
      (currentNumber b).count '.' := by
  induction b using List.reverseRecOn with
  | nil => simp [currentNumber_nil]
  | append_singleton b x ih =>
    rw [splitOnP_concat, currentNumber_concat]
    by_cases hq : isNumericChar x = true
    · have hop : ¬ isOperator x = true := by
        intro hop
        rw [not_isNumericChar_of_isOperator hop] at hq
        exact absurd hq (by decide)
      simp only [hq, Bool.not_true, Bool.false_eq_true, if_false, hop]
      rw [getLastD_concat]
      simp only [List.count_append]
      omega
    · simp [hq]

theorem dotInv_tokens {b : List Char} (h : DotInv b) :
    ∀ t ∈ b.splitOnP (fun c => !isNumericChar c), t.count '.' ≤ 1 := by
  induction b using List.reverseRecOn with
  | nil =>
    intro t ht
    have : t = [] := by simpa using ht
    simp [this]
  | append_singleton b x ih =>
    intro t ht
    have ih2 := ih (dotInv_of_concat h)
    have hlast := count_lastRun_le (b ++ [x])
    have hcur := h _ (currentNumber_mem (b ++ [x]))
    rw [splitOnP_concat] at ht hlast
    by_cases hq : isNumericChar x = true
    · simp only [hq, Bool.not_true, Bool.false_eq_true, if_false] at ht hlast
      rw [List.mem_append] at ht
      rcases ht with ht | ht
      · exact ih2 t (List.mem_of_mem_dropLast ht)
      · have : t = (b.splitOnP (fun c => !isNumericChar c)).getLastD [] ++ [x] := by
          simpa using ht
        rw [getLastD_concat] at hlast
        rw [this]
        omega
    · simp only [hq, Bool.not_false, if_true] at ht
      rw [List.mem_append] at ht
      rcases ht with ht | ht
      · exact ih2 t ht
      · have : t = [] := by simpa using ht
        simp [this]

/-! ## Claims on reachable states -/

/-- C1: in every state without error reached from the initial empty buffer by a sequence of
`appendToDisplay`, `backspace`, `clearDisplay`, `clearEntry` and `toggleSign` calls, two
neighbouring characters of the buffer that are both operators can only be the characters at
positions 0 and 1, and the buffer then starts with `-`. -/
theorem reachable_no_adjacent_operators (ops : List Op)
    (herr : (runOps ops State.init).isError = false) (i : Nat)
    (hi : i + 1 < (runOps ops State.init).display.length)
    (h1 : isOperator ((runOps ops State.init).display.get ⟨i, by omega⟩) = true)
    (h2 : isOperator ((runOps ops State.init).display.get ⟨i + 1, hi⟩) = true) :
    i = 0 ∧ (runOps ops State.init).display.head? = some '-' :=
  (bufferInv_reachable ops herr).1.adjacent i hi h1 h2

/-- The buffer `"-+"` is reached by typing `-`, replacing it by `+` and toggling the sign:
its two operators sit at positions 0 and 1 behind a leading `-`. -/
theorem reachable_no_adjacent_operators_witness :
    (runOps [.append ['-'], .append ['+'], .toggleSign] State.init).display = "-+".toList ∧
      (0 = 0 ∧
        (runOps [.append ['-'], .append ['+'], .toggleSign] State.init).display.head? =
          some '-') :=
  ⟨by decide,
    reachable_no_adjacent_operators [.append ['-'], .append ['+'], .toggleSign] (by decide) 0
      (by decide) (by decide) (by decide)⟩

/-- C2: in every state without error reached from the initial empty buffer by a sequence of
`appendToDisplay`, `backspace`, `clearDisplay`, `clearEntry` and `toggleSign` calls, no
numeric token of the buffer holds more than one `.`. -/
theorem reachable_one_dot_per_token (ops : List Op)
    (herr : (runOps ops State.init).isError = false) :
    ∀ t ∈ numericTokens (runOps ops State.init).display, t.count '.' ≤ 1 := by
  intro t ht
  have hinv := (bufferInv_reachable ops herr).2
  exact dotInv_tokens hinv t (List.mem_filter.1 ht).1

/-- Typing `1.5.+2..5` leaves `1.5+2.5`, whose tokens `1.5` and `2.5` hold one point each. -/
theorem reachable_one_dot_per_token_witness :
    numericTokens (runOps [.append ['1'], .append ['.'], .append ['5'], .append ['.'],
        .append ['+'], .append ['2'], .append ['.'], .append ['.'], .append ['5']]
        State.init).display = ["1.5".toList, "2.5".toList] ∧
      ∀ t ∈ numericTokens (runOps [.append ['1'], .append ['.'], .append ['5'], .append ['.'],
        .append ['+'], .append ['2'], .append ['.'], .append ['.'], .append ['5']]
        State.init).display, t.count '.' ≤ 1 :=
  ⟨by decide, reachable_one_dot_per_token _ (by decide)⟩

/-! ## `calculate` -/

theorem includes_iff (s sub : List Char) :
    includes s sub = true ↔ ∃ pre post, s = pre ++ sub ++ post := by
  induction s with
  | nil =>
    cases sub with
    | nil => simp [includes]
    | cons x sub => simp [includes]
  | cons c cs ih =>
    rw [includes, Bool.or_eq_true, ih, List.isPrefixOf_iff_prefix]
    constructor
    · rintro (⟨post, h⟩ | ⟨pre, post, h⟩)
      · exact ⟨[], post, by simpa using h.symm⟩
      · exact ⟨c :: pre, post, by simp [h]⟩
    · rintro ⟨pre, post, h⟩
      cases pre with
      | nil => exact Or.inl ⟨post, by simpa using h.symm⟩
      | cons x pre =>
        right
        simp only [List.cons_append, List.cons.injEq] at h
        exact ⟨pre, post, h.2⟩

theorem jsTrim_eq_nil_iff (e : List Char) :
    jsTrim e = [] ↔ ∀ c ∈ e, isJsWhitespace c = true := by
  simp only [jsTrim, List.reverse_eq_nil_iff, List.dropWhile_eq_nil_iff, List.mem_reverse]
  constructor
  · intro h
    by_contra hne
    have hd : e.dropWhile isJsWhitespace ≠ [] := by
      rw [Ne, List.dropWhile_eq_nil_iff]; exact hne
    obtain ⟨x, t, hxt⟩ := List.exists_cons_of_ne_nil hd
    have hx : isJsWhitespace x = true := h x (by rw [hxt]; simp)
    have := List.head_dropWhile_not isJsWhitespace e hd
    simp only [hxt, List.head_cons] at this
    rw [hx] at this
    exact absurd this (by decide)
  · intro h c hc
    exact h c ((List.dropWhile_sublist _).subset hc)

/-- A buffer that is neither empty nor made of whitespace only. -/
def NotBlank (b : List Char) : Prop := ∃ c ∈ b, isJsWhitespace c = false

theorem blank_check_false {e : List Char} (h : NotBlank e) :
    (e == [] || jsTrim e == []) = false := by
  obtain ⟨c, hc, hw⟩ := h
  rw [Bool.or_eq_false_iff]
  constructor
  · cases e with
    | nil => simp at hc
    | cons x t => rfl
  · rw [beq_eq_false_iff_ne, Ne, jsTrim_eq_nil_iff]
    intro hall
    rw [hall c hc] at hw
    exact absurd hw (by decide)

theorem sanitizeExpression_all (e : List Char) :
    (sanitizeExpression e).all isExpressionChar = true := by
  simp [sanitizeExpression]

theorem handleError_inj {m m2 : List Char} {s : State}
    (h : handleError m s = handleError m2 s) : m = m2 := by
  have hd : (handleError m s).display = (handleError m2 s).display := by rw [h]
  exact List.append_cancel_left hd

/-- The result of `calculate` when its `try` block ends with an exception. -/
theorem calculate_of_error (ev : List Char → EvalResult) (s : State) (name message : List Char)
    (h : calculateTry ev s.display = .error (name, message)) :
    calculate ev s =
      if name = "SyntaxError".toList then handleError msgInvalidExpression s
      else handleError message s := by
  simp [calculate, h]

theorem calculate_of_ok (ev : List Char → EvalResult) (s : State) (f : List Char) (r : JsValue)
    (h : calculateTry ev s.display = .ok (f, r)) :
    calculate ev s = { s with display := f, lastResult := some r } := by
  simp [calculate, h]

theorem calculate_ok_ne_handleError (ev : List Char → EvalResult) (s : State) (f : List Char)
    (r : JsValue) (h : calculateTry ev s.display = .ok (f, r)) (m : List Char) :
    calculate ev s ≠ handleError m s := by
  rw [calculate_of_ok ev s f r h]
  intro he
  have ht : s.timers = s.timers + 1 := congrArg State.timers he
  omega

theorem calculateTry_divisionByZero (ev : List Char → EvalResult) (e : List Char)
    (hb : NotBlank e) (h : divisionByZeroCheck (sanitizeExpression e) = true) :
    calculateTry ev e = .error ("Error".toList, msgDivisionByZero) := by
  unfold calculateTry
  simp only [blank_check_false hb, h, Bool.false_eq_true, if_false, if_true]

theorem calculateTry_incomplete (ev : List Char → EvalResult) (e : List Char)
    (hb : NotBlank e) (h : divisionByZeroCheck (sanitizeExpression e) = false)
    (hlast : operatorsAndDot.contains (sliceLast (sanitizeExpression e)) = true) :
    calculateTry ev e = .error ("Error".toList, msgIncomplete) := by
  have hne : sanitizeExpression e ≠ [] := by
    intro h0
    rw [h0] at hlast
    exact absurd hlast (by decide)
  have hne2 : (sanitizeExpression e != []) = true := by simpa using hne
  unfold calculateTry
  simp only [blank_check_false hb, h, hne2, sanitizeExpression_all, hlast, Bool.false_eq_true,
    if_false, Bool.and_self, Bool.not_true, if_true]

/-- Every exception that ends the `try` block of `calculate` on a buffer that is not blank. -/
theorem calculateTry_error_cases (ev : List Char → EvalResult) (e name m : List Char)
    (hb : NotBlank e) (h : calculateTry ev e = .error (name, m)) :
    (name = "Error".toList ∧ m = msgDivisionByZero ∧
        divisionByZeroCheck (sanitizeExpression e) = true) ∨
      (name = "Error".toList ∧ m = msgInvalidFormat ∧
        divisionByZeroCheck (sanitizeExpression e) = false ∧ sanitizeExpression e = []) ∨
      (name = "Error".toList ∧ m = msgIncomplete ∧
        divisionByZeroCheck (sanitizeExpression e) = false ∧
        operatorsAndDot.contains (sliceLast (sanitizeExpression e)) = true) ∨
      (divisionByZeroCheck (sanitizeExpression e) = false ∧
        operatorsAndDot.contains (sliceLast (sanitizeExpression e)) = false ∧
        ev (functionBody (sanitizeExpression e)) = .thrown name m) ∨
      (name = "Error".toList ∧ (m = msgInvalidCalculation ∨ m = msgInfinite) ∧
        divisionByZeroCheck (sanitizeExpression e) = false ∧
        operatorsAndDot.contains (sliceLast (sanitizeExpression e)) = false ∧
        ∃ r, ev (functionBody (sanitizeExpression e)) = .value r ∧ r.isFinite = false) := by
  unfold calculateTry at h
  simp only [blank_check_false hb, Bool.false_eq_true, if_false, sanitizeExpression_all,
    Bool.and_true] at h
  split_ifs at h with h1 h2 h3
  · simp only [Except.error.injEq, Prod.mk.injEq] at h
    exact Or.inl ⟨h.1.symm, h.2.symm, h1⟩
  · simp only [Except.error.injEq, Prod.mk.injEq] at h
    refine Or.inr (Or.inl ⟨h.1.symm, h.2.symm, by simpa using h1, by simpa using h2⟩)
  · simp only [Except.error.injEq, Prod.mk.injEq] at h
    exact Or.inr (Or.inr (Or.inl ⟨h.1.symm, h.2.symm, by simpa using h1, h3⟩))
  · have h1f : divisionByZeroCheck (sanitizeExpression e) = false := by simpa using h1
    have h3f : operatorsAndDot.contains (sliceLast (sanitizeExpression e)) = false := by
      simpa using h3
    cases hv : ev (functionBody (sanitizeExpression e)) with
    | thrown n msg =>
      rw [hv] at h
      simp only [Except.error.injEq, Prod.mk.injEq] at h
      exact Or.inr (Or.inr (Or.inr (Or.inl ⟨h1f, h3f, by rw [h.1, h.2]⟩)))
    | value r =>
      rw [hv] at h
      simp only at h
      split_ifs at h with h4 h5
      · simp only [Except.error.injEq, Prod.mk.injEq] at h
        exact Or.inr (Or.inr (Or.inr (Or.inr
          ⟨h.1.symm, Or.inl h.2.symm, h1f, h3f, r, rfl, by simpa using h4⟩)))
      · simp only [Except.error.injEq, Prod.mk.injEq] at h
        exact Or.inr (Or.inr (Or.inr (Or.inr
          ⟨h.1.symm, Or.inr h.2.symm, h1f, h3f, r, rfl, by simpa using h4⟩)))

/-- When `calculate` ends in `handleError m`, its `try` block ended with an exception, and `m`
is the message its `catch` clause picks. -/
theorem calculate_eq_handleError (ev : List Char → EvalResult) (s : State) (m : List Char)
    (h : calculate ev s = handleError m s) :
    ∃ name msg, calculateTry ev s.display = .error (name, msg) ∧
      m = if name = "SyntaxError".toList then msgInvalidExpression else msg := by
  cases hct : calculateTry ev s.display with
  | ok p =>
    obtain ⟨f, r⟩ := p
    exact absurd h (calculate_ok_ne_handleError ev s f r hct m)
  | error p =>
    obtain ⟨name, msg⟩ := p
    refine ⟨name, msg, rfl, ?_⟩
    rw [calculate_of_error ev s name msg hct] at h
    split_ifs at h ⊢ with hn
    · exact (handleError_inj h).symm
    · exact (handleError_inj h).symm

theorem error_ne_syntaxError : "Error".toList ≠ "SyntaxError".toList := by decide

/-- If `calculate` reports `Division by zero` and the evaluation did not throw that message
itself, the guard of line 147 fired. -/
theorem divisionByZeroCheck_of_calculate (ev : List Char → EvalResult)
    (hev : ∀ src name, ev src ≠ .thrown name msgDivisionByZero) (s : State)
    (hb : NotBlank s.display) (h : calculate ev s = handleError msgDivisionByZero s) :
    divisionByZeroCheck (sanitizeExpression s.display) = true := by
  obtain ⟨name, msg, hct, hm⟩ := calculate_eq_handleError ev s _ h
  rcases calculateTry_error_cases ev s.display name msg hb hct with
    ⟨-, -, hc⟩ | ⟨hn, hmsg, -⟩ | ⟨hn, hmsg, -⟩ | ⟨-, -, hthrown⟩ | ⟨hn, hmsg, -⟩
  · exact hc
  · rw [hn, if_neg error_ne_syntaxError, hmsg] at hm
    exact absurd hm (by decide)
  · rw [hn, if_neg error_ne_syntaxError, hmsg] at hm
    exact absurd hm (by decide)
  · split_ifs at hm with hs
    · exact absurd hm (by decide)
    · rw [← hm] at hthrown
      exact absurd hthrown (hev _ _)
  · rw [hn, if_neg error_ne_syntaxError] at hm
    rcases hmsg with hmsg | hmsg <;> rw [hmsg] at hm <;> exact absurd hm (by decide)

/-- If `calculate` reports `Incomplete expression` and the evaluation did not throw that
message itself, the guard of line 158 fired. -/
theorem incomplete_of_calculate (ev : List Char → EvalResult)
    (hev : ∀ src name, ev src ≠ .thrown name msgIncomplete) (s : State)
    (hb : NotBlank s.display) (h : calculate ev s = handleError msgIncomplete s) :
    operatorsAndDot.contains (sliceLast (sanitizeExpression s.display)) = true := by
  obtain ⟨name, msg, hct, hm⟩ := calculate_eq_handleError ev s _ h
  rcases calculateTry_error_cases ev s.display name msg hb hct with
    ⟨hn, hmsg, -⟩ | ⟨hn, hmsg, -⟩ | ⟨-, -, -, hc⟩ | ⟨-, -, hthrown⟩ | ⟨hn, hmsg, -⟩
  · rw [hn, if_neg error_ne_syntaxError, hmsg] at hm
    exact absurd hm (by decide)
  · rw [hn, if_neg error_ne_syntaxError, hmsg] at hm
    exact absurd hm (by decide)
  · exact hc
  · split_ifs at hm with hs
    · exact absurd hm (by decide)
    · rw [← hm] at hthrown
      exact absurd hthrown (hev _ _)
  · rw [hn, if_neg error_ne_syntaxError] at hm
    rcases hmsg with hmsg | hmsg <;> rw [hmsg] at hm <;> exact absurd hm (by decide)

/-! ## Claims on `calculate` -/

/-- The condition of C5 in the words of the specification: the text holds an occurrence of
`/0` that is not immediately followed by `.`. -/
def HasSlashZeroNotBeforeDot (t : List Char) : Prop :=
  ∃ pre post, t = pre ++ "/0".toList ++ post ∧ post.head? ≠ some '.'

/-- C5, counterexample: the buffer `"1/0+1/0.5"` is not blank and its sanitized text holds
an occurrence of `/0` not followed by `.` (the first one), yet `calculate` does not report
`Division by zero`, whatever the evaluation returns (short of throwing that very message),
because the text also holds `/0.`. -/
theorem calculate_divisionByZero_counterexample :
    NotBlank "1/0+1/0.5".toList ∧
      HasSlashZeroNotBeforeDot (sanitizeExpression "1/0+1/0.5".toList) ∧
      divisionByZeroCheck (sanitizeExpression "1/0+1/0.5".toList) = false ∧
      ∀ ev : List Char → EvalResult, (∀ src name, ev src ≠ .thrown name msgDivisionByZero) →
        calculate ev { State.init with display := "1/0+1/0.5".toList } ≠
          handleError msgDivisionByZero { State.init with display := "1/0+1/0.5".toList } := by
  have hb : NotBlank "1/0+1/0.5".toList := ⟨'1', by decide, by decide⟩
  refine ⟨hb, ⟨"1".toList, "+1/0.5".toList, by decide, by decide⟩, by decide, ?_⟩
  intro ev hev h
  have := divisionByZeroCheck_of_calculate ev hev _ hb h
  exact absurd this (by decide)

/-- C5, amended: for a buffer that is not blank, and an evaluation that does not itself throw
the message `Division by zero`, `calculate` reports `Division by zero` exactly when the
sanitized buffer holds the text `/0` and does not hold the text `/0.` anywhere. -/
theorem calculate_divisionByZero_iff (ev : List Char → EvalResult)
    (hev : ∀ src name, ev src ≠ .thrown name msgDivisionByZero) (s : State)
    (hb : NotBlank s.display) :
    calculate ev s = handleError msgDivisionByZero s ↔
      (∃ pre post, sanitizeExpression s.display = pre ++ "/0".toList ++ post) ∧
        ¬ ∃ pre post, sanitizeExpression s.display = pre ++ "/0.".toList ++ post := by
  rw [← includes_iff, ← includes_iff]
  constructor
  · intro h
    have hc := divisionByZeroCheck_of_calculate ev hev s hb h
    simpa [divisionByZeroCheck] using hc
  · intro h
    have hc : divisionByZeroCheck (sanitizeExpression s.display) = true := by
      simpa [divisionByZeroCheck] using h
    rw [calculate_of_error ev s _ _ (calculateTry_divisionByZero ev s.display hb hc),
      if_neg error_ne_syntaxError]

/-- The witnesses of C5 in the specification: `"8/0"` reports `Division by zero`. -/
theorem calculate_divisionByZero_iff_witness :
    calculate (fun _ => EvalResult.thrown "SyntaxError".toList [])
        { State.init with display := "8/0".toList } =
      handleError msgDivisionByZero { State.init with display := "8/0".toList } :=
  (calculate_divisionByZero_iff (fun _ => EvalResult.thrown "SyntaxError".toList [])
    (fun _ _ h => absurd (EvalResult.thrown.inj h).2 (by decide))
    { State.init with display := "8/0".toList } ⟨'8', by decide, by decide⟩).2
    ⟨⟨"8".toList, [], by decide⟩, fun h => absurd ((includes_iff _ _).2 h) (by decide)⟩

/-- The last character of a text that is not a space. -/
def lastNonSpace (t : List Char) : Option Char :=
  (t.reverse.dropWhile (fun c => c == ' ')).head?

/-- C6, counterexample: the buffer `"4+ "` is reached from the empty buffer, is not blank,
does not trigger the division-by-zero check, and the last character of its sanitized text
that is not a space is the operator `+`; yet `calculate` does not report
`Incomplete expression`, whatever the evaluation returns (short of throwing that very
message), because the last character is a space. -/
theorem calculate_incomplete_counterexample :
    runOps [.append ['4'], .append ['+'], .append [' ']] State.init =
        { State.init with display := "4+ ".toList } ∧
      NotBlank "4+ ".toList ∧
      divisionByZeroCheck (sanitizeExpression "4+ ".toList) = false ∧
      lastNonSpace (sanitizeExpression "4+ ".toList) = some '+' ∧
      ∀ ev : List Char → EvalResult, (∀ src name, ev src ≠ .thrown name msgIncomplete) →
        calculate ev { State.init with display := "4+ ".toList } ≠
          handleError msgIncomplete { State.init with display := "4+ ".toList } := by
  have hb : NotBlank "4+ ".toList := ⟨'4', by decide, by decide⟩
  refine ⟨by decide, hb, by decide, by decide, ?_⟩
  intro ev hev h
  have := incomplete_of_calculate ev hev _ hb h
  exact absurd this (by decide)

/-- C6, amended: for a buffer that is not blank and does not trigger the division-by-zero
check, if the last character of the sanitized buffer is an operator or a decimal point, then
`calculate` reports `Incomplete expression`. -/
theorem calculate_incomplete (ev : List Char → EvalResult) (s : State)
    (hb : NotBlank s.display)
    (hdz : divisionByZeroCheck (sanitizeExpression s.display) = false)
    (hlast : ∃ c, (sanitizeExpression s.display).getLast? = some c ∧
      (isOperator c = true ∨ c = '.')) :
    calculate ev s = handleError msgIncomplete s ∧
      (calculate ev s).isError = true ∧
      (calculate ev s).display = "Error: Incomplete expression".toList := by
  obtain ⟨c, hc, hop⟩ := hlast
  have hcontains : operatorsAndDot.contains (sliceLast (sanitizeExpression s.display)) = true := by
    rcases List.eq_nil_or_concat (sanitizeExpression s.display) with h0 | ⟨l, x, hl⟩
    · rw [h0] at hc; simp at hc
    · rw [List.concat_eq_append] at hl
      rw [hl] at hc ⊢
      have hx : x = c := by simpa using hc
      rw [sliceLast_concat, operatorsAndDot_contains_iff]
      exact ⟨x, rfl, hx ▸ hop⟩
  have e : calculate ev s = handleError msgIncomplete s := by
    rw [calculate_of_error ev s _ _ (calculateTry_incomplete ev s.display hb hdz hcontains),
      if_neg error_ne_syntaxError]
  refine ⟨e, ?_, ?_⟩ <;> rw [e] <;> rfl

/-- The witness of C6 in the specification: `"4+"` reports `Incomplete expression`. -/
theorem calculate_incomplete_witness :
    calculate (fun _ => EvalResult.thrown "SyntaxError".toList [])
        { State.init with display := "4+".toList } =
      handleError msgIncomplete { State.init with display := "4+".toList } :=
  (calculate_incomplete (fun _ => EvalResult.thrown "SyntaxError".toList [])
    { State.init with display := "4+".toList } ⟨'4', by decide, by decide⟩ (by decide)
    ⟨'+', by decide, Or.inl (by decide)⟩).1

/-! ## The error state, the recovery timer, and whole executions -/

/-- The arrow function handed to `setTimeout` by `handleError`:
`if (isError) { clearDisplay(); }`. -/
def timerCallback (s : State) : State :=
  if s.isError then clearDisplay s else s

/-- An event of the single-threaded run of the script: an edit operation, a press on the
evaluate key, or the firing of the oldest armed timer. -/
inductive Event where
  | edit (op : Op)
  | evaluate
  | timer
deriving DecidableEq

/-- Run one event. -/
def Event.run (ev : List Char → EvalResult) : Event → State → State
  | .edit op, s => op.run s
  | .evaluate, s => calculate ev s
  | .timer, s => timerFires s

/-- Run a sequence of events, first to last. -/
def runEvents (ev : List Char → EvalResult) (es : List Event) (s : State) : State :=
  es.foldl (fun s e => e.run ev s) s

/-- The value 2 as `calculate` observes it. -/
def jsTwo : JsValue :=
  { isFinite := true, isNaN := false, isInteger := true, toStr := "2".toList,
    toFixed10 := "2".toList, toExponential6 := "2.000000e+0".toList }

theorem timerFires_eq (s : State) :
    timerFires s = timerCallback { s with timers := s.timers - 1 } := rfl

theorem backspace_of_isError (s : State) (h : s.isError = true) :
    backspace s = clearDisplay s := by
  simp [backspace, h]

theorem toggleSign_of_isError (s : State) (h : s.isError = true) :
    toggleSign s = clearDisplay s := by
  simp [toggleSign, h]

/-- C11, counterexample: after the result 2 the buffer `"2+"` is evaluated and rejected, which
leaves an error state with `lastResult` set; `clearEntry` on it keeps `lastResult`, while
`clearDisplay` followed by `clearEntry` resets it. -/
theorem error_state_edit_counterexample :
    (∀ ev : List Char → EvalResult,
        calculate ev { State.init with display := "2+".toList, lastResult := some jsTwo } =
          handleError msgIncomplete
            { State.init with display := "2+".toList, lastResult := some jsTwo }) ∧
      (handleError msgIncomplete
        { State.init with display := "2+".toList, lastResult := some jsTwo }).isError = true ∧
      clearEntry (handleError msgIncomplete
          { State.init with display := "2+".toList, lastResult := some jsTwo }) ≠
        clearEntry (clearDisplay (handleError msgIncomplete
          { State.init with display := "2+".toList, lastResult := some jsTwo })) := by
  refine ⟨fun ev => ?_, rfl, by decide⟩
  rw [calculate_of_error ev _ _ _
    (calculateTry_incomplete ev _ ⟨'2', by decide, by decide⟩ (by decide) (by decide)),
    if_neg error_ne_syntaxError]

/-- C11, amended: on a state in error, `appendToDisplay`, `backspace` and `toggleSign` give the
state obtained by `clearDisplay` followed by the same operation; `clearEntry` gives that state
except that it keeps `lastResult`, and gives exactly that state when `lastResult` is empty. -/
theorem error_state_edit (s : State) (hs : s.isError = true) (input : List Char) :
    appendToDisplay input s = appendToDisplay input (clearDisplay s) ∧
      backspace s = backspace (clearDisplay s) ∧
      toggleSign s = toggleSign (clearDisplay s) ∧
      clearEntry s = { clearEntry (clearDisplay s) with lastResult := s.lastResult } ∧
      (s.lastResult = none → clearEntry s = clearEntry (clearDisplay s)) := by
  refine ⟨appendToDisplay_of_isError input s hs, ?_, ?_, rfl, ?_⟩
  · rw [backspace_of_isError s hs]; rfl
  · rw [toggleSign_of_isError s hs]; rfl
  · intro h
    simp [clearEntry, clearDisplay, h]

/-- In the error state left by the invalid input `x`, typing `7` gives the buffer `"7"`, as
clearing first and typing `7` does. -/
theorem error_state_edit_witness :
    appendToDisplay ['7'] (handleError msgInvalidCharacter State.init) =
        appendToDisplay ['7'] (clearDisplay (handleError msgInvalidCharacter State.init)) ∧
      (appendToDisplay ['7'] (handleError msgInvalidCharacter State.init)).display = ['7'] :=
  ⟨(error_state_edit (handleError msgInvalidCharacter State.init) rfl ['7']).1, by decide⟩

/-- C14: the timer callback changes nothing on a state that is not in error, and on a state
in error it is `clearDisplay`: the buffer is emptied, the error flag and styling are removed
and `lastResult` is reset. -/
theorem timerCallback_spec (s : State) :
    (s.isError = false → timerCallback s = s) ∧
      (s.isError = true → timerCallback s = clearDisplay s ∧
        (timerCallback s).display = [] ∧ (timerCallback s).isError = false ∧
        (timerCallback s).errorClass = false ∧ (timerCallback s).lastResult = none) := by
  constructor
  · intro h
    simp [timerCallback, h]
  · intro h
    have e : timerCallback s = clearDisplay s := by simp [timerCallback, h]
    rw [e]
    exact ⟨rfl, rfl, rfl, rfl, rfl⟩

/-- The callback on the error state left by an invalid input, and on the initial state. -/
theorem timerCallback_spec_witness :
    timerCallback (handleError msgInvalidCharacter State.init) =
        clearDisplay (handleError msgInvalidCharacter State.init) ∧
      timerCallback State.init = State.init :=
  ⟨((timerCallback_spec (handleError msgInvalidCharacter State.init)).2 rfl).1,
    (timerCallback_spec State.init).1 rfl⟩

theorem handleError_display (m : List Char) (s : State) :
    (handleError m s).display = "Error: ".toList ++ m := rfl

/-- An `appendToDisplay` that ends in the error state, from a state without error, is one of
its two `throw`s. -/
theorem appendToDisplay_fails (input : List Char) (s : State) (hs : s.isError = false)
    (h : (appendToDisplay input s).isError = true) :
    (isValidInput input = false ∧ appendToDisplay input s = handleError msgInvalidCharacter s) ∨
      (isValidInput input = true ∧ 15 ≤ s.display.length ∧
        appendToDisplay input s = handleError msgMaxLength s) := by
  by_cases hv : isValidInput input = true
  · right
    obtain ⟨c, rfl, hc⟩ := (isValidInput_iff input).1 hv
    have e := appendToDisplay_valid c s hs hc
    rw [e] at h ⊢
    split_ifs at h ⊢ with h1 h2 h3 h4 h5
    · exact absurd h (by simp [hs])
    · exact absurd h (by simp [hs])
    · exact absurd h (by simp [hs])
    · exact absurd h (by simp [hs])
    · exact ⟨hv, h5, rfl⟩
    · exact absurd h (by simp [hs])
  · left
    have hv2 : isValidInput input = false := by simpa using hv
    exact ⟨hv2, appendToDisplay_invalid input s hs hv2⟩

/-- C12, counterexample: with the buffer `"12"`, the invalid input `x` fails and the text held
afterwards is the error text, not `"12"`; likewise at the length cap. -/
theorem failure_keeps_buffer_counterexample :
    (appendToDisplay ['x'] { State.init with display := "12".toList }).isError = true ∧
      (appendToDisplay ['x'] { State.init with display := "12".toList }).display =
        "Error: Invalid character".toList ∧
      (appendToDisplay ['x'] { State.init with display := "12".toList }).display ≠
        "12".toList ∧
      (appendToDisplay ['6'] { State.init with display := "123456789012345".toList }).display =
        "Error: Maximum input length reached".toList ∧
      (appendToDisplay ['6'] { State.init with display := "123456789012345".toList }).display ≠
        "123456789012345".toList := by
  decide

/-- C12, amended: an operation that fails replaces the text of the display by `Error: `
followed by its message, whatever the buffer held.  For `appendToDisplay` the message is
`Invalid character` or, from a state without error on a buffer of 15 characters or more,
`Maximum input length reached`; `lastResult` is left as it was when the state was not in
error, and is reset when it was, because the call then runs `clearDisplay` before it fails.
For `calculate`, on every state, the message is `Invalid expression` when the exception is a
`SyntaxError` and the message of the exception otherwise, and `lastResult` is left as it was.
Neither the input nor a result is written to the buffer. -/
theorem failure_replaces_display (ev : List Char → EvalResult) (s : State)
    (input : List Char) :
    ((appendToDisplay input s).isError = true →
        ((appendToDisplay input s).display = "Error: Invalid character".toList ∨
          (s.isError = false ∧ 15 ≤ s.display.length ∧
            (appendToDisplay input s).display =
              "Error: Maximum input length reached".toList)) ∧
        (appendToDisplay input s).lastResult = (if s.isError then none else s.lastResult)) ∧
      (∀ name m, calculateTry ev s.display = .error (name, m) →
        (calculate ev s).display = "Error: ".toList ++
          (if name = "SyntaxError".toList then msgInvalidExpression else m) ∧
        (calculate ev s).isError = true ∧ (calculate ev s).lastResult = s.lastResult) := by
  constructor
  · intro h
    by_cases hs : s.isError = true
    · rw [appendToDisplay_of_isError input s hs] at h ⊢
      rw [if_pos hs]
      rcases appendToDisplay_fails input (clearDisplay s) rfl h with ⟨-, e⟩ | ⟨-, hlen, -⟩
      · rw [e]; exact ⟨Or.inl rfl, rfl⟩
      · simp [clearDisplay] at hlen
    · have hs2 : s.isError = false := by simpa using hs
      rw [if_neg hs]
      rcases appendToDisplay_fails input s hs2 h with ⟨-, e⟩ | ⟨-, hlen, e⟩
      · rw [e]; exact ⟨Or.inl rfl, rfl⟩
      · rw [e]; exact ⟨Or.inr ⟨hs2, hlen, rfl⟩, rfl⟩
  · intro name m h
    rw [calculate_of_error ev s name m h]
    split_ifs <;> exact ⟨rfl, rfl, rfl⟩

/-- With the buffer `"4+"`, `calculate` fails and the display reads
`Error: Incomplete expression`; in the error state that follows the result 2, the invalid
input `x` fails with `lastResult` reset. -/
theorem failure_replaces_display_witness :
    (calculate (fun _ => EvalResult.thrown "SyntaxError".toList [])
        { State.init with display := "4+".toList }).display =
        "Error: Incomplete expression".toList ∧
      (appendToDisplay ['x'] (handleError msgIncomplete
        { State.init with display := "2+".toList, lastResult := some jsTwo })).lastResult =
        none :=
  ⟨((failure_replaces_display (fun _ => EvalResult.thrown "SyntaxError".toList [])
      { State.init with display := "4+".toList } []).2 "Error".toList msgIncomplete
      (calculateTry_incomplete _ _ ⟨'4', by decide, by decide⟩ (by decide) (by decide))).1,
    ((failure_replaces_display (fun _ => EvalResult.thrown "SyntaxError".toList [])
      (handleError msgIncomplete
        { State.init with display := "2+".toList, lastResult := some jsTwo }) ['x']).1
      (by decide)).2⟩

/-- C13, counterexample: the invalid input `x` raises a first error and arms a first timer; the
edit `1` clears that error; the invalid input `y` raises a second error and arms a second
timer; then the first timer fires and clears the second error, message and flag. -/
theorem stale_timer_counterexample :
    (runEvents (fun _ => EvalResult.thrown "SyntaxError".toList [])
        [.edit (.append ['x']), .edit (.append ['1'])] State.init).isError = false ∧
      (runEvents (fun _ => EvalResult.thrown "SyntaxError".toList [])
        [.edit (.append ['x']), .edit (.append ['1']), .edit (.append ['y'])] State.init) =
        { display := "Error: Invalid character".toList, errorClass := true, isError := true,
          lastResult := none, timers := 2 } ∧
      (runEvents (fun _ => EvalResult.thrown "SyntaxError".toList [])
        [.edit (.append ['x']), .edit (.append ['1']), .edit (.append ['y']), .timer]
        State.init) =
        { display := [], errorClass := false, isError := false, lastResult := none,
          timers := 1 } := by
  decide

/-- C13, amended: a timer that fires while the error flag is set clears the error, whichever
error armed it: when an older timer is still armed and a later failure shows its message, the
firing of the older timer performs `clearDisplay`, so the later message and flag are removed.
In every execution the state right after a timer firing is not in error. -/
theorem stale_timer_clears_later_error (ev : List Char → EvalResult) (m : List Char)
    (s : State) (hold : 0 < s.timers) :
    timerFires (handleError m s) = clearDisplay s ∧
      (timerFires (handleError m s)).isError = false ∧
      (timerFires (handleError m s)).display = [] ∧
      0 < (timerFires (handleError m s)).timers ∧
      ∀ (es : List Event) (s0 : State), (runEvents ev (es ++ [.timer]) s0).isError = false := by
  refine ⟨rfl, rfl, rfl, hold, ?_⟩
  intro es s0
  simp only [runEvents, List.foldl_append, List.foldl_cons, List.foldl_nil, Event.run,
    timerFires]
  split_ifs <;> first | rfl | simp_all

/-- With the timer of a first error still armed, a second error is cleared when it fires. -/
theorem stale_timer_clears_later_error_witness :
    timerFires (handleError msgInvalidCharacter
        (appendToDisplay ['1'] (handleError msgInvalidCharacter State.init))) =
      clearDisplay (appendToDisplay ['1'] (handleError msgInvalidCharacter State.init)) :=
  (stale_timer_clears_later_error (fun _ => EvalResult.thrown "SyntaxError".toList [])
    msgInvalidCharacter (appendToDisplay ['1'] (handleError msgInvalidCharacter State.init))
    (by decide)).1

/-! ## Length and leading operator on reachable buffers -/

/-- C15: the buffer of 13 digits and `+` has 14 characters; appending `.` writes `0.` without
passing the length check and leaves 16 characters, and from 14 digits and `+` it leaves 17,
in a state without error reached by `appendToDisplay` calls alone. -/
theorem length_cap_bypassed :
    (runOps (List.replicate 13 (Op.append ['1']) ++ [.append ['+'], .append ['.']])
        State.init) = { State.init with display := "1111111111111+0.".toList } ∧
      "1111111111111+0.".toList.length = 16 ∧
      (runOps (List.replicate 14 (Op.append ['1']) ++ [.append ['+'], .append ['.']])
        State.init) = { State.init with display := "11111111111111+0.".toList } ∧
      "11111111111111+0.".toList.length = 17 := by
  decide

/-- C18: typing `-` and then `+` replaces the lone `-`, so the buffer begins with `+`. -/
theorem leading_operator_accepted :
    (runOps [.append ['-'], .append ['+']] State.init) =
      { State.init with display := ['+'] } ∧
      (runOps [.append ['-'], .append ['*']] State.init).display.head? = some '*' ∧
      (runOps [.append ['-'], .append ['/']] State.init).display.head? = some '/' := by
  decide

/-! ## `toggleSign` twice -/

/-- C19: on a state without error, `toggleSign` applied twice gives back the buffer exactly
when the buffer is not `"-"`, is not `"-0"` and does not begin with `"--"`. -/
theorem toggleSign_twice_iff (s : State) (hs : s.isError = false) :
    (toggleSign (toggleSign s)).display = s.display ↔
      s.display ≠ ['-'] ∧ s.display ≠ ['-', '0'] ∧ ∀ rest, s.display ≠ '-' :: '-' :: rest := by
  obtain ⟨d, ec, ie, lr, t⟩ := s
  simp only at hs
  subst hs
  match d with
  | [] => simp [toggleSign]
  | [x] =>
    by_cases hx : x = '-'
    · subst hx; simp [toggleSign]
    · by_cases h0 : x = '0'
      · subst h0; simp [toggleSign]
      · have hx2 : ¬ '-' = x := fun h => hx h.symm
        simp [toggleSign, hx, h0, hx2]
  | x :: y :: r =>
    by_cases hx : x = '-'
    · subst hx
      by_cases hy : y = '-'
      · subst hy
        have hlen : ¬ r = '-' :: '-' :: r := fun h => by
          have := congrArg List.length h
          simp only [List.length_cons] at this
          omega
        simp [toggleSign, hlen]
      · have hy2 : ¬ '-' = y := fun h => hy h.symm
        by_cases h0 : y = '0' ∧ r = []
        · obtain ⟨rfl, rfl⟩ := h0
          simp [toggleSign]
        · simp [toggleSign, hy, hy2, h0]
    · have hx2 : ¬ '-' = x := fun h => hx h.symm
      simp [toggleSign, hx, hx2]

/-- On `"5+3"` two sign toggles give `"5+3"` back. -/
theorem toggleSign_twice_iff_witness :
    (toggleSign (toggleSign { State.init with display := "5+3".toList })).display =
      "5+3".toList :=
  (toggleSign_twice_iff { State.init with display := "5+3".toList } rfl).2
    ⟨by decide, by decide, fun rest h => absurd (List.cons.inj h).1 (by decide)⟩

/-! ## The outcomes of `calculate` -/

/-- The formatting step of `calculate` (lines 175 to 187): the rendering of an integer, or of
the value rounded to 10 decimal places, replaced by the exponential rendering when it is
longer than 15 characters. -/
def formatResult (result : JsValue) : List Char :=
  let formattedResult := if result.isInteger then result.toStr else result.toFixed10
  if formattedResult.length > 15 then result.toExponential6 else formattedResult

theorem calculateTry_blank (ev : List Char → EvalResult) (e : List Char) (h : ¬ NotBlank e) :
    calculateTry ev e = .error ("Error".toList, msgNoExpression) := by
  have hall : ∀ c ∈ e, isJsWhitespace c = true := by
    intro c hc
    by_contra hw
    exact h ⟨c, hc, by simpa using hw⟩
  have ht : jsTrim e = [] := (jsTrim_eq_nil_iff e).2 hall
  unfold calculateTry
  simp only [ht, beq_self_eq_true, Bool.or_true, if_true]

theorem sanitizeExpression_eq_nil_iff (e : List Char) :
    sanitizeExpression e = [] ↔ ∀ c ∈ e, c ∉ allowedAlphabet := by
  simp only [sanitizeExpression, List.filter_eq_nil_iff, ← isExpressionChar_iff_mem]

theorem divisionByZeroCheck_nil : divisionByZeroCheck [] = false := by decide

theorem calculateTry_invalidFormat (ev : List Char → EvalResult) (e : List Char)
    (hb : NotBlank e) (hnil : sanitizeExpression e = []) :
    calculateTry ev e = .error ("Error".toList, msgInvalidFormat) := by
  unfold calculateTry
  simp only [blank_check_false hb, hnil, divisionByZeroCheck_nil, Bool.false_eq_true, if_false,
    bne_self_eq_false, Bool.false_and, Bool.not_false, if_true]

theorem calculateTry_thrown (ev : List Char → EvalResult) (e name m : List Char)
    (hb : NotBlank e) (hdz : divisionByZeroCheck (sanitizeExpression e) = false)
    (hne : sanitizeExpression e ≠ [])
    (hlast : operatorsAndDot.contains (sliceLast (sanitizeExpression e)) = false)
    (hev : ev (functionBody (sanitizeExpression e)) = .thrown name m) :
    calculateTry ev e = .error (name, m) := by
  have hne2 : (sanitizeExpression e != []) = true := by simpa using hne
  unfold calculateTry
  simp only [blank_check_false hb, hdz, hne2, sanitizeExpression_all, hlast, hev,
    Bool.false_eq_true, if_false, Bool.and_self, Bool.not_true]

theorem calculateTry_value (ev : List Char → EvalResult) (e : List Char) (r : JsValue)
    (hb : NotBlank e) (hdz : divisionByZeroCheck (sanitizeExpression e) = false)
    (hne : sanitizeExpression e ≠ [])
    (hlast : operatorsAndDot.contains (sliceLast (sanitizeExpression e)) = false)
    (hev : ev (functionBody (sanitizeExpression e)) = .value r) (hfin : r.isFinite = true) :
    calculateTry ev e = .ok (formatResult r, r) := by
  have hne2 : (sanitizeExpression e != []) = true := by simpa using hne
  unfold calculateTry
  simp only [blank_check_false hb, hdz, hne2, sanitizeExpression_all, hlast, hev, hfin,
    Bool.false_eq_true, if_false, Bool.and_self, Bool.not_true, formatResult]

/-- If `calculate` reports `Invalid expression format` and the evaluation did not throw that
message itself, the buffer is not blank and its sanitized text is empty. -/
theorem invalidFormat_of_calculate (ev : List Char → EvalResult)
    (hev : ∀ src name, ev src ≠ .thrown name msgInvalidFormat) (s : State)
    (h : calculate ev s = handleError msgInvalidFormat s) :
    NotBlank s.display ∧ sanitizeExpression s.display = [] := by
  obtain ⟨name, msg, hct, hm⟩ := calculate_eq_handleError ev s _ h
  by_cases hb : NotBlank s.display
  · refine ⟨hb, ?_⟩
    rcases calculateTry_error_cases ev s.display name msg hb hct with
      ⟨hn, hmsg, -⟩ | ⟨-, -, -, hc⟩ | ⟨hn, hmsg, -⟩ | ⟨-, -, hthrown⟩ | ⟨hn, hmsg, -⟩
    · rw [hn, if_neg error_ne_syntaxError, hmsg] at hm
      exact absurd hm (by decide)
    · exact hc
    · rw [hn, if_neg error_ne_syntaxError, hmsg] at hm
      exact absurd hm (by decide)
    · split_ifs at hm with hs
      · exact absurd hm (by decide)
      · rw [← hm] at hthrown
        exact absurd hthrown (hev _ _)
    · rw [hn, if_neg error_ne_syntaxError] at hm
      rcases hmsg with hmsg | hmsg <;> rw [hmsg] at hm <;> exact absurd hm (by decide)
  · rw [calculateTry_blank ev s.display hb] at hct
    simp only [Except.error.injEq, Prod.mk.injEq] at hct
    rw [← hct.1, if_neg error_ne_syntaxError, ← hct.2] at hm
    exact absurd hm (by decide)

/-- C20: `sanitizeExpression` keeps exactly the characters `0-9 + - * / . ( )` and space, in
order; and, for an evaluation that does not itself throw the message
`Invalid expression format`, `calculate` reports that message exactly when the buffer is not
blank and holds no character of that set. -/
theorem calculate_invalidFormat_iff (ev : List Char → EvalResult)
    (hev : ∀ src name, ev src ≠ .thrown name msgInvalidFormat) (s : State) :
    sanitizeExpression s.display = s.display.filter (fun c => decide (c ∈ allowedAlphabet)) ∧
      (calculate ev s = handleError msgInvalidFormat s ↔
        NotBlank s.display ∧ ∀ c ∈ s.display, c ∉ allowedAlphabet) := by
  constructor
  · simp only [sanitizeExpression]
    congr 1
    funext c
    rw [Bool.eq_iff_iff, isExpressionChar_iff_mem]
    simp
  · rw [← sanitizeExpression_eq_nil_iff]
    constructor
    · exact invalidFormat_of_calculate ev hev s
    · rintro ⟨hb, hnil⟩
      rw [calculate_of_error ev s _ _ (calculateTry_invalidFormat ev s.display hb hnil),
        if_neg error_ne_syntaxError]

/-- The example of C20: the buffer `"="` is reported as `Invalid expression format`. -/
theorem calculate_invalidFormat_iff_witness :
    calculate (fun _ => EvalResult.thrown "SyntaxError".toList [])
        { State.init with display := ['='] } =
      handleError msgInvalidFormat { State.init with display := ['='] } :=
  ((calculate_invalidFormat_iff (fun _ => EvalResult.thrown "SyntaxError".toList [])
    (fun _ _ h => absurd (EvalResult.thrown.inj h).2 (by decide))
    { State.init with display := ['='] }).2).2
    ⟨⟨'=', by decide, by decide⟩, by decide⟩

/-- The messages of the failure reasons `EmptyExpression`, `DivisionByZero`, `InvalidFormat`,
`InvalidExpression`, `IncompleteExpression`, `InvalidCalculation` and `ResultInfinite`. -/
def enumeratedMessages : List (List Char) :=
  [msgNoExpression, msgDivisionByZero, msgInvalidFormat, msgInvalidExpression, msgIncomplete,
    msgInvalidCalculation, msgInfinite]

/-- C16, counterexample: `"5(3)"` is made of allowed characters and passes every check of
`calculate`; it is the call of a number, for which the language prescribes a `TypeError` at
run time and not a `SyntaxError`.  With an evaluation that throws this `TypeError`, `calculate`
reports the message of the exception, which is none of the enumerated messages. -/
theorem calculate_outcomes_counterexample :
    (∀ c ∈ "5(3)".toList, c ∈ allowedAlphabet) ∧
      calculate (fun _ => EvalResult.thrown "TypeError".toList "5 is not a function".toList)
          { State.init with display := "5(3)".toList } =
        handleError "5 is not a function".toList { State.init with display := "5(3)".toList } ∧
      (calculate (fun _ => EvalResult.thrown "TypeError".toList "5 is not a function".toList)
          { State.init with display := "5(3)".toList }).display =
        "Error: 5 is not a function".toList ∧
      "5 is not a function".toList ∉ enumeratedMessages := by
  decide

/-- C16, amended: `calculate` either succeeds, or fails with one of the enumerated messages,
or, when the evaluation throws an exception that is not a `SyntaxError`, fails with the message
of that exception.  An expression that passes the checks and that the evaluation rejects with
a `SyntaxError` is reported as `Invalid expression`. -/
theorem calculate_outcomes (ev : List Char → EvalResult) (s : State) :
    ((∃ f r, calculate ev s = { s with display := f, lastResult := some r }) ∨
        (∃ m ∈ enumeratedMessages, calculate ev s = handleError m s) ∨
        (∃ name m, name ≠ "SyntaxError".toList ∧
          ev (functionBody (sanitizeExpression s.display)) = .thrown name m ∧
          calculate ev s = handleError m s)) ∧
      (∀ m, NotBlank s.display → divisionByZeroCheck (sanitizeExpression s.display) = false →
        sanitizeExpression s.display ≠ [] →
        operatorsAndDot.contains (sliceLast (sanitizeExpression s.display)) = false →
        ev (functionBody (sanitizeExpression s.display)) = .thrown "SyntaxError".toList m →
        calculate ev s = handleError msgInvalidExpression s) := by
  constructor
  · cases hct : calculateTry ev s.display with
    | ok p =>
      obtain ⟨f, r⟩ := p
      exact Or.inl ⟨f, r, calculate_of_ok ev s f r hct⟩
    | error p =>
      obtain ⟨name, msg⟩ := p
      right
      have hcalc := calculate_of_error ev s name msg hct
      by_cases hb : NotBlank s.display
      · rcases calculateTry_error_cases ev s.display name msg hb hct with
          ⟨hn, hmsg, -⟩ | ⟨hn, hmsg, -⟩ | ⟨hn, hmsg, -⟩ | ⟨-, -, hthrown⟩ | ⟨hn, hmsg, -⟩
        · rw [hn, if_neg error_ne_syntaxError, hmsg] at hcalc
          exact Or.inl ⟨_, by simp [enumeratedMessages], hcalc⟩
        · rw [hn, if_neg error_ne_syntaxError, hmsg] at hcalc
          exact Or.inl ⟨_, by simp [enumeratedMessages], hcalc⟩
        · rw [hn, if_neg error_ne_syntaxError, hmsg] at hcalc
          exact Or.inl ⟨_, by simp [enumeratedMessages], hcalc⟩
        · by_cases hs : name = "SyntaxError".toList
          · rw [if_pos hs] at hcalc
            exact Or.inl ⟨_, by simp [enumeratedMessages], hcalc⟩
          · rw [if_neg hs] at hcalc
            exact Or.inr ⟨name, msg, hs, hthrown, hcalc⟩
        · rw [hn, if_neg error_ne_syntaxError] at hcalc
          rcases hmsg with hmsg | hmsg <;> rw [hmsg] at hcalc <;>
            exact Or.inl ⟨_, by simp [enumeratedMessages], hcalc⟩
      · rw [calculateTry_blank ev s.display hb] at hct
        simp only [Except.error.injEq, Prod.mk.injEq] at hct
        rw [← hct.1, if_neg error_ne_syntaxError, ← hct.2] at hcalc
        exact Or.inl ⟨_, by simp [enumeratedMessages], hcalc⟩
  · intro m hb hdz hne hlast hev
    rw [calculate_of_error ev s _ _ (calculateTry_thrown ev s.display _ m hb hdz hne hlast hev),
      if_pos rfl]

end ModernCalculator
